import Mathlib

/-!
Verification of the SmartShopPro sales-analytics pipeline (src/app.py).

The analytics pipeline of the dashboard is shallowly embedded here:
monetary amounts are rationals, calendar dates are integers counting days,
a raw field fetched from the remote store is either an already numeric
value, a text value, or null.  The pipeline (lines 68-138 of src/app.py)
is modelled as a pure function from the raw record list and the two
operator inputs (monthly goal, alert threshold) to a dashboard value.
-/

namespace SmartShopPro

/-- A raw field value as returned by the remote store: a number, an
arbitrary text, or null (missing). -/
inductive RawValue where
  | num (q : ℚ)
  | text (s : String)
  | null
deriving DecidableEq

/-- A raw sales record as fetched from the sales table (line 69-70).
The date is a calendar date encoded as a day count; date parsing is out
of scope (the spec leaves unparsable dates undefined). -/
structure RawRecord where
  date : ℤ
  product : String
  revenue : RawValue
  expense : RawValue
  quantity : RawValue
deriving DecidableEq

/-- A cleaned sales record: the three numeric fields are coerced to
numbers and the derived profit column is added (lines 74-78). -/
structure SaleRecord where
  date : ℤ
  product : String
  revenue : ℚ
  expense : ℚ
  quantity : ℚ
  profit : ℚ
deriving DecidableEq

/-- Digit-string parser: accepts a nonempty all-digit character list. -/
def parseDigits : List Char → Option ℕ
  | [] => none
  | cs =>
    if cs.all Char.isDigit then
      some (cs.foldl (fun acc c => 10 * acc + (c.toNat - 48)) 0)
    else none

/-- Unsigned decimal literal parser: digits with an optional fractional
part separated by a dot. -/
def parseUnsigned (cs : List Char) : Option ℚ :=
  match cs.splitOn '.' with
  | [ip] => (parseDigits ip).map (fun n => (n : ℚ))
  | [ip, fp] =>
    match parseDigits ip, parseDigits fp with
    | some n, some f => some ((n : ℚ) + (f : ℚ) / (10 : ℚ) ^ fp.length)
    | _, _ => none
  | _ => none

/-- Numeric-string parser with an optional leading sign. -/
def parseNumeric (s : String) : Option ℚ :=
  match s.toList with
  | [] => none
  | '-' :: rest => (parseUnsigned rest).map (fun q => -q)
  | '+' :: rest => parseUnsigned rest
  | cs => parseUnsigned cs

/-- Model of pd.to_numeric with errors coerce (lines 74-76): an already
numeric value is kept, a text value is parsed as a numeric literal, and
null or an unparsable text yields none (NaN in pandas). -/
def toNumeric : RawValue → Option ℚ
  | .num q => some q
  | .text s => parseNumeric s
  | .null => none

/-- Cleaning of one record (lines 74-78): each numeric field is coerced
with toNumeric and NaN is replaced by 0 (fillna), then the profit column
is computed as revenue - expense. -/
def cleanRecord (r : RawRecord) : SaleRecord :=
  let rev := (toNumeric r.revenue).getD 0
  let exp := (toNumeric r.expense).getD 0
  let qty := (toNumeric r.quantity).getD 0
  { date := r.date, product := r.product, revenue := rev, expense := exp,
    quantity := qty, profit := rev - exp }

/-- Cleaning of the whole record set (lines 74-79): per-record coercion
followed by df.sort_values on the date column.  The sort is modelled as
a sort ranked by date; the source uses the pandas default quicksort,
whose order among records with equal dates is not specified, so no
theorem in this file relies on the relative order of equal dates. -/
def clean (raw : List RawRecord) : List SaleRecord :=
  List.insertionSort (fun a b => a.date ≤ b.date) (raw.map cleanRecord)

/-- Gross revenue KPI (line 83). -/
def totalRevenue (df : List SaleRecord) : ℚ := (df.map SaleRecord.revenue).sum

/-- Net profit KPI (line 84). -/
def totalProfit (df : List SaleRecord) : ℚ := (df.map SaleRecord.profit).sum

/-- Units-sold KPI (line 90). -/
def totalUnits (df : List SaleRecord) : ℚ := (df.map SaleRecord.quantity).sum

/-- Profit margin percentage with its zero-revenue guard (line 85). -/
def marginPct (df : List SaleRecord) : ℚ :=
  if totalRevenue df > 0 then totalProfit df / totalRevenue df * 100 else 0

/-- Average ticket (line 91): revenue divided by the record count,
evaluated by the source only inside the nonempty branch. -/
def averageTicket (df : List SaleRecord) : ℚ :=
  totalRevenue df / (df.length : ℚ)

/-- The binary alert state (lines 94-100). -/
inductive AlertState where
  | HEALTHY
  | BELOW_THRESHOLD
deriving DecidableEq

/-- The information exposed by the below-threshold alert branch
(lines 95-96): current margin, threshold, total revenue, total profit. -/
structure AlertPayload where
  margin : ℚ
  threshold : ℚ
  revenue : ℚ
  profit : ℚ
deriving DecidableEq

/-- Alert evaluation (lines 94-100): below-threshold when the margin is
strictly under the limit, healthy otherwise; only the below branch
exposes the alert payload. -/
def alertEval (margin threshold t_rev t_prof : ℚ) :
    AlertState × Option AlertPayload :=
  if margin < threshold then
    (AlertState.BELOW_THRESHOLD, some ⟨margin, threshold, t_rev, t_prof⟩)
  else (AlertState.HEALTHY, none)

/-- Goal progress (line 104): the source divides by the operator goal
unconditionally; there is no guard for a zero or negative goal (the
sidebar widget on line 65 places no lower bound on the goal). -/
def goalProgress (t_rev goal : ℚ) : ℚ := min (t_rev / goal) 1

/-- Minimum of a pandas series of dates (the value on the empty list is
irrelevant: the source only evaluates it under the daily guard). -/
def seriesMin : List ℤ → ℤ
  | [] => 0
  | x :: t => t.foldl min x

/-- Maximum of a pandas series of dates. -/
def seriesMax : List ℤ → ℤ
  | [] => 0
  | x :: t => t.foldl max x

/-- The distinct dates of the cleaned set in ascending order: the keys
of the groupby on the date column (line 114), which pandas sorts. -/
def dailyDates (df : List SaleRecord) : List ℤ :=
  List.insertionSort (fun a b => a ≤ b) (df.map SaleRecord.date).dedup

/-- Total revenue of one calendar date across the cleaned set. -/
def dailyRevenue (df : List SaleRecord) (d : ℤ) : ℚ :=
  ((df.filter (fun r => r.date = d)).map SaleRecord.revenue).sum

/-- The daily aggregate series (line 114): one row per distinct date,
holding the summed revenue of that date. -/
def dailyAggregate (df : List SaleRecord) : List (ℤ × ℚ) :=
  (dailyDates df).map (fun d => (d, dailyRevenue df d))

/-- Regression input (line 115): each daily row becomes the pair of its
integer day offset since the earliest observed date and its revenue. -/
def regressionPoints (daily : List (ℤ × ℚ)) (minDate : ℤ) : List (ℚ × ℚ) :=
  daily.map (fun p => (((p.1 - minDate : ℤ) : ℚ), p.2))

/-- Number of regression points, as a rational. -/
def nPts (pts : List (ℚ × ℚ)) : ℚ := (pts.length : ℚ)

/-- Sum of the regression abscissas. -/
def sumX (pts : List (ℚ × ℚ)) : ℚ := (pts.map Prod.fst).sum

/-- Sum of the regression ordinates. -/
def sumY (pts : List (ℚ × ℚ)) : ℚ := (pts.map Prod.snd).sum

/-- Sum of the products abscissa times ordinate. -/
def sumXY (pts : List (ℚ × ℚ)) : ℚ := (pts.map (fun p => p.1 * p.2)).sum

/-- Sum of the squared abscissas. -/
def sumXX (pts : List (ℚ × ℚ)) : ℚ := (pts.map (fun p => p.1 * p.1)).sum

/-- Closed-form ordinary-least-squares slope of the fitted line, the
single-feature solution computed by the LinearRegression fit on
line 117. -/
def olsSlope (pts : List (ℚ × ℚ)) : ℚ :=
  (nPts pts * sumXY pts - sumX pts * sumY pts) /
    (nPts pts * sumXX pts - sumX pts * sumX pts)

/-- Closed-form ordinary-least-squares intercept of the fitted line. -/
def olsIntercept (pts : List (ℚ × ℚ)) : ℚ :=
  (sumY pts - olsSlope pts * sumX pts) / nPts pts

/-- Sum of squared residuals of an affine predictor over the regression
points: the objective minimized by the least-squares fit. -/
def sse (pts : List (ℚ × ℚ)) (a b : ℚ) : ℚ :=
  (pts.map (fun p => (p.2 - (a + b * p.1)) ^ 2)).sum

/-- The forecast engine (lines 114-124): under the guard of at least two
daily rows, fit the least-squares line on the day offsets and predict
the next seven offsets after the largest observed offset; the i-th
prediction is displayed at the calendar date max date + i (line 123). -/
def forecastOf (daily : List (ℤ × ℚ)) : List (ℤ × ℚ) :=
  if 1 < daily.length then
    let minD := seriesMin (daily.map Prod.fst)
    let maxD := seriesMax (daily.map Prod.fst)
    let maxIdx := seriesMax (daily.map (fun p => p.1 - minD))
    let pts := regressionPoints daily minD
    let b := olsSlope pts
    let a := olsIntercept pts
    (List.range 7).map (fun (i : ℕ) =>
      (maxD + (i : ℤ) + 1, a + b * ((maxIdx : ℚ) + (i : ℚ) + 1)))
  else []

/-- Summed revenue of all records carrying one product label. -/
def categoryRevenue (df : List SaleRecord) (label : String) : ℚ :=
  ((df.filter (fun r => r.product = label)).map SaleRecord.revenue).sum

/-- The category-share mapping (line 129): each distinct product label
of the cleaned set is mapped to its summed revenue, as the pie chart
aggregation does. -/
def categoryShare (df : List SaleRecord) : List (String × ℚ) :=
  ((df.map SaleRecord.product).dedup).map (fun l => (l, categoryRevenue df l))

/-- The KPI values of the top metric row (lines 83-91). -/
structure KPISet where
  totalRevenue : ℚ
  totalProfit : ℚ
  totalUnits : ℚ
  marginPct : ℚ
  averageTicket : ℚ
deriving DecidableEq

/-- The outputs of one pipeline run.  An Option field is none exactly
when the source renders nothing for that section. -/
structure Dashboard where
  kpis : Option KPISet
  alert : Option (AlertState × Option AlertPayload)
  progress : Option ℚ
  forecast : List (ℤ × ℚ)
  categoryShare : List (String × ℚ)
deriving DecidableEq

/-- The whole analytics pipeline (lines 68-138): on an empty fetch the
source renders only the awaiting-data message (line 138) and none of
the analytics sections; otherwise it cleans the set and renders the
KPI row, the alert, the goal progress, the forecast and the category
share. -/
def pipeline (goal alertLimit : ℚ) (raw : List RawRecord) : Dashboard :=
  if raw.isEmpty then
    { kpis := none, alert := none, progress := none,
      forecast := [], categoryShare := [] }
  else
    let df := clean raw
    let t_rev := totalRevenue df
    let t_prof := totalProfit df
    let margin := marginPct df
    { kpis := some ⟨t_rev, t_prof, totalUnits df, margin, averageTicket df⟩,
      alert := some (alertEval margin alertLimit t_rev t_prof),
      progress := some (goalProgress t_rev goal),
      forecast := forecastOf (dailyAggregate df),
      categoryShare := categoryShare df }

/-- A sample raw record used to instantiate universally quantified
theorems on concrete inputs. -/
def sampleRaw : RawRecord :=
  ⟨0, "Electronics", RawValue.num 100, RawValue.num 0, RawValue.num 1⟩

/-- C2: for every cleaned record set, the margin equals
profit / revenue * 100 when the total revenue is positive and equals 0
when the total revenue is zero, so the division-by-zero branch is never
taken and the computation is total. -/
theorem margin_zero_division_guard (raw : List RawRecord) :
    (0 < totalRevenue (clean raw) →
      marginPct (clean raw) =
        totalProfit (clean raw) / totalRevenue (clean raw) * 100) ∧
    (totalRevenue (clean raw) = 0 → marginPct (clean raw) = 0) := by
  constructor
  · intro h
    rw [marginPct, if_pos h]
  · intro h
    rw [marginPct, if_neg]
    rw [h]
    norm_num

/-- Witness for C2 at the empty record set. -/
theorem margin_zero_division_guard_witness : marginPct (clean []) = 0 :=
  (margin_zero_division_guard []).2 rfl

/-- C7: the alert state is healthy exactly when the margin is at least
the threshold (equality included) and below-threshold otherwise, and the
below branch exposes the margin, the threshold, the revenue and the
profit. -/
theorem alert_state_binary (margin threshold t_rev t_prof : ℚ) :
    ((alertEval margin threshold t_rev t_prof).1 = AlertState.HEALTHY ↔
      threshold ≤ margin) ∧
    ((alertEval margin threshold t_rev t_prof).1 =
        AlertState.BELOW_THRESHOLD ↔ margin < threshold) ∧
    (margin < threshold →
      (alertEval margin threshold t_rev t_prof).2 =
        some ⟨margin, threshold, t_rev, t_prof⟩) ∧
    (alertEval threshold threshold t_rev t_prof).1 = AlertState.HEALTHY := by
  have hlast : (alertEval threshold threshold t_rev t_prof).1 =
      AlertState.HEALTHY := by
    simp [alertEval]
  by_cases h : margin < threshold
  · refine ⟨?_, ?_, ?_, hlast⟩
    · simp [alertEval, h, not_le.mpr h]
    · simp [alertEval, h]
    · intro _
      simp [alertEval, h]
  · refine ⟨?_, ?_, ?_, hlast⟩
    · simp [alertEval, h, not_lt.mp h]
    · simp [alertEval, h]
    · intro hc
      exact absurd hc h
/-- Witness for C7: a below-threshold margin exposes the payload. -/
theorem alert_state_binary_witness :
    (alertEval 10 15 100 10).2 = some ⟨10, 15, 100, 10⟩ :=
  (alert_state_binary 10 15 100 10).2.2.1 (by norm_num)

/-- C3: the source has no guard for a non-positive monthly goal; the
goal-progress section is still produced (the progress output of the
pipeline is not suppressed) when the operator goal is 0, so the
division by the goal on line 104 is performed.  This evaluates the
embedded code at the failing input goal = 0. -/
theorem goal_progress_not_suppressed :
    ((pipeline 0 15 [sampleRaw]).progress).isSome = true := by
  simp [pipeline]

/-- C5: a daily-aggregate sequence with fewer than two distinct dates
(including one date and the empty set) yields an empty forecast. -/
theorem insufficient_data_guard (df : List SaleRecord)
    (h : ((df.map SaleRecord.date).dedup).length < 2) :
    forecastOf (dailyAggregate df) = [] := by
  have hlen : (dailyAggregate df).length < 2 := by
    simpa [dailyAggregate, dailyDates, List.length_insertionSort,
      List.length_map] using h
  rw [forecastOf, if_neg]
  omega

/-- Witness for C5: two same-date records give a single distinct date
and hence an empty forecast. -/
theorem insufficient_data_guard_witness :
    forecastOf (dailyAggregate
      [⟨5, "A", 100, 0, 1, 100⟩, ⟨5, "B", 50, 0, 1, 50⟩]) = [] :=
  insufficient_data_guard
    [⟨5, "A", 100, 0, 1, 100⟩, ⟨5, "B", 50, 0, 1, 50⟩] (by decide)

/-- C9: cleaning never rejects a record (the cleaned set has the length
of the raw set) and every field whose numeric coercion fails is
replaced by 0; in particular a record with revenue "abc" is kept with
revenue 0. -/
theorem cleaning_coercion :
    (∀ raw : List RawRecord, (clean raw).length = raw.length) ∧
    (∀ r : RawRecord, toNumeric r.revenue = none →
      (cleanRecord r).revenue = 0) ∧
    (∀ r : RawRecord, toNumeric r.expense = none →
      (cleanRecord r).expense = 0) ∧
    (∀ r : RawRecord, toNumeric r.quantity = none →
      (cleanRecord r).quantity = 0) ∧
    (cleanRecord ⟨0, "Apparel", RawValue.text "abc", RawValue.num 5,
      RawValue.null⟩).revenue = 0 := by
  refine ⟨fun raw => ?_, fun r h => ?_, fun r h => ?_, fun r h => ?_, ?_⟩
  · simp [clean, List.length_insertionSort, List.length_map]
  · simp [cleanRecord, h]
  · simp [cleanRecord, h]
  · simp [cleanRecord, h]
  · rfl

/-- Witness for C9: a null revenue field is coerced to 0. -/
theorem cleaning_coercion_witness :
    (cleanRecord ⟨0, "Grocery", RawValue.null, RawValue.num 3,
      RawValue.num 2⟩).revenue = 0 :=
  cleaning_coercion.2.1
    ⟨0, "Grocery", RawValue.null, RawValue.num 3, RawValue.num 2⟩ rfl

/-- C10: the average-ticket division only happens in the nonempty
branch of the pipeline, where the record count is positive; there its
value is the total revenue divided by the record count. -/
theorem average_ticket_guarded (goal alertLimit : ℚ)
    (raw : List RawRecord) (h : raw ≠ []) :
    0 < (clean raw).length ∧
    (pipeline goal alertLimit raw).kpis =
      some ⟨totalRevenue (clean raw), totalProfit (clean raw),
            totalUnits (clean raw), marginPct (clean raw),
            totalRevenue (clean raw) / ((clean raw).length : ℚ)⟩ := by
  obtain ⟨a, t, rfl⟩ : ∃ a t, raw = a :: t := by
    cases raw with
    | nil => exact absurd rfl h
    | cons a t => exact ⟨a, t, rfl⟩
  constructor
  · rw [clean, List.length_insertionSort, List.length_map]
    simp
  · simp [pipeline, averageTicket]

/-- Witness for C10 at a one-record set. -/
theorem average_ticket_guarded_witness :
    0 < (clean [sampleRaw]).length ∧
    (pipeline 100000 15 [sampleRaw]).kpis =
      some ⟨totalRevenue (clean [sampleRaw]), totalProfit (clean [sampleRaw]),
            totalUnits (clean [sampleRaw]), marginPct (clean [sampleRaw]),
            totalRevenue (clean [sampleRaw]) /
              ((clean [sampleRaw]).length : ℚ)⟩ :=
  average_ticket_guarded 100000 15 [sampleRaw] (List.cons_ne_nil _ _)

/-- C6 counterexample: on the empty record list the source renders only
the awaiting-data message, so the pipeline emits no KPI values at all
rather than a KPI set of zeros. -/
theorem empty_input_kpis_suppressed_cex :
    (pipeline 100000 15 []).kpis ≠ some ⟨0, 0, 0, 0, 0⟩ := by
  simp [pipeline]

/-- C6 (amended): on the empty record list the pipeline is total and
produces the awaiting-data state: KPI, alert and goal outputs are all
suppressed, the forecast and the category share are empty; moreover the
KPI aggregations themselves evaluate to zero on the empty cleaned set. -/
theorem empty_input_graceful (goal alertLimit : ℚ) :
    pipeline goal alertLimit [] =
      { kpis := none, alert := none, progress := none,
        forecast := [], categoryShare := [] } ∧
    totalRevenue (clean []) = 0 ∧ totalProfit (clean []) = 0 ∧
    totalUnits (clean []) = 0 ∧ marginPct (clean []) = 0 ∧
    forecastOf (dailyAggregate (clean [])) = [] ∧
    categoryShare (clean []) = [] := by
  refine ⟨rfl, rfl, rfl, rfl, ?_, rfl, rfl⟩
  rw [marginPct, if_neg]
  norm_num [totalRevenue, clean]

/-- The revenue of one label over a cons splits into the head
contribution and the tail revenue. -/
lemma categoryRevenue_cons (r : SaleRecord) (t : List SaleRecord)
    (l : String) :
    categoryRevenue (r :: t) l =
      (if r.product = l then r.revenue else 0) + categoryRevenue t l := by
  by_cases h : r.product = l <;>
    simp [categoryRevenue, List.filter_cons, h]

/-- Summing an indicator of one label over a duplicate-free label list
containing it yields its value. -/
lemma sum_indicator (labels : List String) (l : String) (v : ℚ)
    (hnd : labels.Nodup) (hmem : l ∈ labels) :
    (labels.map (fun x => if l = x then v else 0)).sum = v := by
  induction labels with
  | nil => cases hmem
  | cons a t ih =>
    rw [List.nodup_cons] at hnd
    rcases List.mem_cons.mp hmem with h | h
    · subst h
      have hz : (t.map (fun x => if l = x then v else 0)).sum = 0 := by
        apply List.sum_eq_zero
        intro y hy
        obtain ⟨x, hx, rfl⟩ := List.mem_map.mp hy
        have : l ≠ x := fun he => hnd.1 (he ▸ hx)
        simp [this]
      simp [hz]
    · have hne : l ≠ a := fun he => hnd.1 (he ▸ h)
      simp [hne, ih hnd.2 h]

/-- Partition of the total revenue along any duplicate-free label list
covering every record. -/
lemma sum_categoryRevenue (labels : List String) (df : List SaleRecord)
    (hnd : labels.Nodup) (hcov : ∀ r ∈ df, r.product ∈ labels) :
    (labels.map (categoryRevenue df)).sum = totalRevenue df := by
  induction df with
  | nil =>
    have : labels.map (categoryRevenue []) = labels.map (fun _ => (0 : ℚ)) :=
      List.map_congr_left (fun x _ => by simp [categoryRevenue])
    simp [this, totalRevenue]
  | cons r t ih =>
    have h1 : labels.map (categoryRevenue (r :: t)) =
        labels.map (fun x =>
          (if r.product = x then r.revenue else 0) + categoryRevenue t x) :=
      List.map_congr_left (fun x _ => categoryRevenue_cons r t x)
    rw [h1, List.sum_map_add,
      sum_indicator labels r.product r.revenue hnd (hcov r (by simp)),
      ih (fun s hs => hcov s (by simp [hs]))]
    simp [totalRevenue]

/-- Concrete record set of the category-share scenario of the spec. -/
def exShare : List SaleRecord :=
  [⟨0, "A", 100, 0, 1, 100⟩, ⟨1, "B", 50, 0, 1, 50⟩, ⟨2, "A", 25, 0, 1, 25⟩]

/-- C8: the category-share output maps each product label of the
cleaned set to the summed revenue of the records carrying it, the sum
of all its values is the total revenue, and on the records
(A,100), (B,50), (A,25) the mapping holds A to 125 and B to 50 with
exactly two entries. -/
theorem category_share_mapping :
    (∀ df : List SaleRecord, ∀ p ∈ categoryShare df,
      p.2 = categoryRevenue df p.1) ∧
    (∀ df : List SaleRecord, ∀ l : String, l ∈ df.map SaleRecord.product →
      (l, categoryRevenue df l) ∈ categoryShare df) ∧
    (∀ df : List SaleRecord,
      ((categoryShare df).map Prod.snd).sum = totalRevenue df) ∧
    categoryRevenue exShare "A" = 125 ∧
    categoryRevenue exShare "B" = 50 ∧
    (categoryShare exShare).length = 2 := by
  refine ⟨fun df p hp => ?_, fun df l hl => ?_, fun df => ?_, ?_, ?_, ?_⟩
  · obtain ⟨l, _, rfl⟩ := List.mem_map.mp hp
    rfl
  · exact List.mem_map_of_mem _ (List.mem_dedup.mpr hl)
  · rw [categoryShare, List.map_map]
    have : (Prod.snd ∘ fun l => (l, categoryRevenue df l)) =
        categoryRevenue df := rfl
    rw [this]
    exact sum_categoryRevenue _ df (List.nodup_dedup _)
      (fun r hr => List.mem_dedup.mpr (List.mem_map_of_mem _ hr))
  · simp +decide [categoryRevenue, exShare, List.filter]
    norm_num
  · simp +decide [categoryRevenue, exShare, List.filter]
  · simp [categoryShare, exShare, List.dedup, List.pwFilter]

/-- Witness for C8: the label A of the concrete set is mapped to its
summed revenue. -/
theorem category_share_mapping_witness :
    ("A", categoryRevenue exShare "A") ∈ categoryShare exShare :=
  category_share_mapping.2.1 exShare "A" (by simp [exShare])

/-- The seed of a running maximum bounds it from below. -/
lemma foldl_max_init_le (l : List ℤ) (x : ℤ) : x ≤ l.foldl max x := by
  induction l generalizing x with
  | nil => simp
  | cons a t ih => exact le_trans (le_max_left x a) (ih (max x a))

/-- Every member of a list bounds its running maximum from below. -/
lemma foldl_max_le_of_mem (l : List ℤ) (x d : ℤ) (hd : d ∈ l) :
    d ≤ l.foldl max x := by
  induction l generalizing x with
  | nil => cases hd
  | cons a t ih =>
    rcases List.mem_cons.mp hd with h | h
    · subst h
      exact le_trans (le_max_right x d) (foldl_max_init_le t _)
    · exact ih _ h

/-- A running maximum is its seed or a member of the list. -/
lemma foldl_max_mem (l : List ℤ) (x : ℤ) :
    l.foldl max x = x ∨ l.foldl max x ∈ l := by
  induction l generalizing x with
  | nil => exact Or.inl rfl
  | cons a t ih =>
    rw [List.foldl_cons]
    rcases ih (max x a) with h | h
    · rw [h]
      rcases le_total x a with hle | hle
      · exact Or.inr (by simp [max_eq_right hle])
      · exact Or.inl (max_eq_left hle)
    · exact Or.inr (List.mem_cons_of_mem a h)

/-- The seed of a running minimum bounds it from above. -/
lemma foldl_min_le_init (l : List ℤ) (x : ℤ) : l.foldl min x ≤ x := by
  induction l generalizing x with
  | nil => simp
  | cons a t ih => exact le_trans (ih (min x a)) (min_le_left x a)

/-- A running minimum is under every member of the list. -/
lemma foldl_min_le_of_mem (l : List ℤ) (x d : ℤ) (hd : d ∈ l) :
    l.foldl min x ≤ d := by
  induction l generalizing x with
  | nil => cases hd
  | cons a t ih =>
    rcases List.mem_cons.mp hd with h | h
    · subst h
      exact le_trans (foldl_min_le_init t _) (min_le_right x d)
    · exact ih _ h

/-- A running minimum is its seed or a member of the list. -/
lemma foldl_min_mem (l : List ℤ) (x : ℤ) :
    l.foldl min x = x ∨ l.foldl min x ∈ l := by
  induction l generalizing x with
  | nil => exact Or.inl rfl
  | cons a t ih =>
    rw [List.foldl_cons]
    rcases ih (min x a) with h | h
    · rw [h]
      rcases le_total x a with hle | hle
      · exact Or.inl (min_eq_left hle)
      · exact Or.inr (by simp [min_eq_right hle])
    · exact Or.inr (List.mem_cons_of_mem a h)

/-- The series maximum of a nonempty date list is an observed date. -/
lemma seriesMax_mem (l : List ℤ) (hne : l ≠ []) : seriesMax l ∈ l := by
  match l, hne with
  | x :: t, _ =>
    show t.foldl max x ∈ x :: t
    rcases foldl_max_mem t x with h | h
    · rw [h]; exact List.mem_cons_self x t
    · exact List.mem_cons_of_mem x h

/-- The series maximum bounds every observed date. -/
lemma le_seriesMax (l : List ℤ) (d : ℤ) (hd : d ∈ l) : d ≤ seriesMax l := by
  match l, hd with
  | x :: t, hd2 =>
    show d ≤ t.foldl max x
    rcases List.mem_cons.mp hd2 with h | h
    · subst h; exact foldl_max_init_le t d
    · exact foldl_max_le_of_mem t x d h

/-- The series minimum of a nonempty date list is an observed date. -/
lemma seriesMin_mem (l : List ℤ) (hne : l ≠ []) : seriesMin l ∈ l := by
  match l, hne with
  | x :: t, _ =>
    show t.foldl min x ∈ x :: t
    rcases foldl_min_mem t x with h | h
    · rw [h]; exact List.mem_cons_self x t
    · exact List.mem_cons_of_mem x h

/-- The series minimum is under every observed date. -/
lemma seriesMin_le (l : List ℤ) (d : ℤ) (hd : d ∈ l) : seriesMin l ≤ d := by
  match l, hd with
  | x :: t, hd2 =>
    show t.foldl min x ≤ d
    rcases List.mem_cons.mp hd2 with h | h
    · subst h; exact foldl_min_le_init t d
    · exact foldl_min_le_of_mem t x d h

/-- A running maximum commutes with a constant shift. -/
lemma foldl_max_shift (l : List ℤ) (x c : ℤ) :
    (l.map (fun d => d - c)).foldl max (x - c) = l.foldl max x - c := by
  induction l generalizing x with
  | nil => rfl
  | cons a t ih =>
    rw [List.map_cons, List.foldl_cons, List.foldl_cons,
      max_sub_sub_right x a c]
    exact ih (max x a)

/-- The maximal day offset is the maximal date minus the minimal date.
This identifies the offset column maximum of line 118 with the date
column maximum of line 123. -/
lemma seriesMax_shift (l : List ℤ) (c : ℤ) (hne : l ≠ []) :
    seriesMax (l.map (fun d => d - c)) = seriesMax l - c := by
  match l, hne with
  | x :: t, _ =>
    show (t.map (fun d => d - c)).foldl max (x - c) = t.foldl max x - c
    exact foldl_max_shift t x c

/-- A mapped sum of differences splits. -/
lemma sum_map_sub {α : Type} (l : List α) (f g : α → ℚ) :
    (l.map (fun x => f x - g x)).sum = (l.map f).sum - (l.map g).sum := by
  induction l with
  | nil => simp
  | cons a t ih =>
    simp only [List.map_cons, List.sum_cons, ih]
    ring

/-- A mapped sum of an affine image of the squares. -/
lemma sum_affine_sq (xs : List ℚ) (c₁ c₂ c₃ : ℚ) :
    (xs.map (fun a => c₁ * (a * a) - 2 * a * c₂ + c₃)).sum =
      c₁ * (xs.map (fun x => x * x)).sum - 2 * c₂ * xs.sum +
        (xs.length : ℚ) * c₃ := by
  induction xs with
  | nil => simp
  | cons a t ih =>
    simp only [List.map_cons, List.sum_cons, List.length_cons]
    push_cast
    linear_combination ih

/-- Expansion of a sum of shifted squares. -/
lemma sum_sq_shift (xs : List ℚ) (c : ℚ) :
    (xs.map (fun x => (c - x) * (c - x))).sum =
      (xs.length : ℚ) * (c * c) - 2 * c * xs.sum +
        (xs.map (fun x => x * x)).sum := by
  induction xs with
  | nil => simp
  | cons a t ih =>
    simp only [List.map_cons, List.sum_cons, List.length_cons]
    push_cast
    linear_combination ih

/-- The double sum of squared pairwise differences equals twice the
least-squares determinant. -/
lemma double_sum_sq (xs : List ℚ) :
    (xs.map (fun a => (xs.map (fun b => (a - b) * (a - b))).sum)).sum =
      2 * ((xs.length : ℚ) * (xs.map (fun x => x * x)).sum -
        xs.sum * xs.sum) := by
  have h1 : xs.map (fun a => (xs.map (fun b => (a - b) * (a - b))).sum) =
      xs.map (fun a => (xs.length : ℚ) * (a * a) - 2 * a * xs.sum +
        (xs.map (fun x => x * x)).sum) :=
    List.map_congr_left (fun a _ => sum_sq_shift xs a)
  rw [h1, sum_affine_sq]
  ring

/-- Over a duplicate-free abscissa list with at least two entries the
least-squares determinant is positive: the Cauchy-Schwarz gap written
as a sum of squared pairwise differences. -/
lemma det_pos (xs : List ℚ) (hnd : xs.Nodup) (hlen : 2 ≤ xs.length) :
    0 < (xs.length : ℚ) * (xs.map (fun x => x * x)).sum -
      xs.sum * xs.sum := by
  have key : 0 <
      (xs.map (fun a => (xs.map (fun b => (a - b) * (a - b))).sum)).sum := by
    match xs, hnd, hlen with
    | a :: b :: t, hnd2, _ =>
      have hab : a ≠ b := by
        have h := List.nodup_cons.mp hnd2
        exact fun he => h.1 (he ▸ List.mem_cons_self b t)
      have hinner : ∀ x : ℚ,
          0 ≤ ((a :: b :: t).map (fun y => (x - y) * (x - y))).sum :=
        fun x => List.sum_nonneg (fun z hz => by
          obtain ⟨y, _, rfl⟩ := List.mem_map.mp hz
          exact mul_self_nonneg _)
      have hfirst : 0 < ((a :: b :: t).map
          (fun y => (a - y) * (a - y))).sum := by
        have hmem : (a - b) * (a - b) ∈
            (a :: b :: t).map (fun y => (a - y) * (a - y)) :=
          List.mem_map_of_mem _ (List.mem_cons_of_mem a
            (List.mem_cons_self b t))
        have hnn : ∀ z ∈ (a :: b :: t).map
            (fun y => (a - y) * (a - y)), 0 ≤ z := fun z hz => by
          obtain ⟨y, _, rfl⟩ := List.mem_map.mp hz
          exact mul_self_nonneg _
        have hle := List.single_le_sum hnn _ hmem
        have hsq : 0 < (a - b) * (a - b) :=
          mul_self_pos.mpr (sub_ne_zero.mpr hab)
        linarith
      have houter : ((a :: b :: t).map
          (fun y => (a - y) * (a - y))).sum ≤
          ((a :: b :: t).map (fun x =>
            ((a :: b :: t).map (fun y => (x - y) * (x - y))).sum)).sum := by
        have hmem : ((a :: b :: t).map (fun y => (a - y) * (a - y))).sum ∈
            (a :: b :: t).map (fun x =>
              ((a :: b :: t).map (fun y => (x - y) * (x - y))).sum) :=
          List.mem_map_of_mem _ (List.mem_cons_self a (b :: t))
        exact List.single_le_sum (fun z hz => by
          obtain ⟨x, _, rfl⟩ := List.mem_map.mp hz
          exact hinner x) _ hmem
      linarith
  have hds := double_sum_sq xs
  linarith

/-- First normal equation of the closed-form least-squares solution. -/
lemma ols_normal₁ (pts : List (ℚ × ℚ)) (hn : nPts pts ≠ 0) :
    olsIntercept pts * nPts pts = sumY pts - olsSlope pts * sumX pts := by
  rw [olsIntercept]
  exact div_mul_cancel₀ _ hn

/-- Second normal equation of the closed-form least-squares solution. -/
lemma ols_normal₂ (pts : List (ℚ × ℚ))
    (hd : nPts pts * sumXX pts - sumX pts * sumX pts ≠ 0) :
    olsSlope pts * (nPts pts * sumXX pts - sumX pts * sumX pts) =
      nPts pts * sumXY pts - sumX pts * sumY pts := by
  rw [olsSlope]
  exact div_mul_cancel₀ _ hd

/-- The residuals of the fitted line sum to zero, plainly and weighted
by the abscissas. -/
lemma residual_sums (pts : List (ℚ × ℚ)) (hn : nPts pts ≠ 0)
    (hd : nPts pts * sumXX pts - sumX pts * sumX pts ≠ 0) :
    sumY pts - nPts pts * olsIntercept pts - olsSlope pts * sumX pts = 0 ∧
    sumXY pts - olsIntercept pts * sumX pts -
      olsSlope pts * sumXX pts = 0 := by
  have e1 := ols_normal₁ pts hn
  have e2 := ols_normal₂ pts hd
  constructor
  · linear_combination -e1
  · have h2 : nPts pts * (sumXY pts - olsIntercept pts * sumX pts -
        olsSlope pts * sumXX pts) = 0 := by
      linear_combination (-(sumX pts)) * e1 - e2
    rcases mul_eq_zero.mp h2 with h | h
    · exact absurd h hn
    · exact h

/-- Exact decomposition of the sum of squared residuals of an arbitrary
affine predictor around a reference predictor. -/
lemma sse_decomp (pts : List (ℚ × ℚ)) (a b a' b' : ℚ) :
    sse pts a' b' =
      sse pts a b +
        (pts.map (fun p => ((a - a') + (b - b') * p.1) ^ 2)).sum +
        2 * (a - a') * (sumY pts - nPts pts * a - b * sumX pts) +
        2 * (b - b') * (sumXY pts - a * sumX pts - b * sumXX pts) := by
  induction pts with
  | nil =>
    simp only [sse, sumY, nPts, sumX, sumXY, sumXX, List.map_nil,
      List.sum_nil, List.length_nil]
    push_cast
    ring
  | cons p t ih =>
    simp only [sse, sumY, nPts, sumX, sumXY, sumXX, List.map_cons,
      List.sum_cons, List.length_cons] at ih ⊢
    push_cast
    linear_combination ih

/-- The closed-form least-squares coefficients minimize the sum of
squared residuals. -/
lemma sse_optimal (pts : List (ℚ × ℚ)) (hn : nPts pts ≠ 0)
    (hd : nPts pts * sumXX pts - sumX pts * sumX pts ≠ 0) (a' b' : ℚ) :
    sse pts (olsIntercept pts) (olsSlope pts) ≤ sse pts a' b' := by
  obtain ⟨h1, h2⟩ := residual_sums pts hn hd
  have hdec := sse_decomp pts (olsIntercept pts) (olsSlope pts) a' b'
  rw [h1, h2] at hdec
  have hsq : 0 ≤ (pts.map (fun p =>
      ((olsIntercept pts - a') + (olsSlope pts - b') * p.1) ^ 2)).sum :=
    List.sum_nonneg (fun z hz => by
      obtain ⟨q, _, rfl⟩ := List.mem_map.mp hz
      exact sq_nonneg _)
  simp only [mul_zero, add_zero] at hdec
  linarith

/-- The slope fitted by the forecast engine on a daily series. -/
def fittedSlope (daily : List (ℤ × ℚ)) : ℚ :=
  olsSlope (regressionPoints daily (seriesMin (daily.map Prod.fst)))

/-- The intercept fitted by the forecast engine on a daily series. -/
def fittedIntercept (daily : List (ℤ × ℚ)) : ℚ :=
  olsIntercept (regressionPoints daily (seriesMin (daily.map Prod.fst)))

/-- The abscissa column of the regression points is the shifted date
column. -/
lemma regression_fst (daily : List (ℤ × ℚ)) (minD : ℤ) :
    (regressionPoints daily minD).map Prod.fst =
      (daily.map Prod.fst).map (fun d => ((d - minD : ℤ) : ℚ)) := by
  simp only [regressionPoints, List.map_map]
  rfl

/-- Under distinct dates and at least two rows, the least-squares
determinant of the regression points does not vanish. -/
lemma regression_det_ne (daily : List (ℤ × ℚ)) (minD : ℤ)
    (hnd : (daily.map Prod.fst).Nodup) (hlen : 2 ≤ daily.length) :
    nPts (regressionPoints daily minD) *
        sumXX (regressionPoints daily minD) -
      sumX (regressionPoints daily minD) *
        sumX (regressionPoints daily minD) ≠ 0 := by
  have hxs := regression_fst daily minD
  have hnodup : ((regressionPoints daily minD).map Prod.fst).Nodup := by
    rw [hxs]
    refine List.Nodup.map ?_ hnd
    intro u v huv
    have h1 : ((u - minD : ℤ) : ℚ) = ((v - minD : ℤ) : ℚ) := huv
    have h2 : (u - minD : ℤ) = (v - minD : ℤ) := by exact_mod_cast h1
    omega
  have hlen2 : 2 ≤ ((regressionPoints daily minD).map Prod.fst).length := by
    simpa [regressionPoints] using hlen
  have hpos := det_pos _ hnodup hlen2
  have t1 : nPts (regressionPoints daily minD) =
      (((regressionPoints daily minD).map Prod.fst).length : ℚ) := by
    simp [nPts]
  have t2 : sumXX (regressionPoints daily minD) =
      (((regressionPoints daily minD).map Prod.fst).map
        (fun x => x * x)).sum := by
    rw [sumXX, List.map_map]
    rfl
  have t3 : sumX (regressionPoints daily minD) =
      ((regressionPoints daily minD).map Prod.fst).sum := rfl
  rw [t1, t2, t3]
  exact ne_of_gt hpos

/-- The number of regression points is the number of daily rows. -/
lemma regression_nPts (daily : List (ℤ × ℚ)) (minD : ℤ) :
    nPts (regressionPoints daily minD) = (daily.length : ℚ) := by
  simp [nPts, regressionPoints]

/-- The daily series of the forecast-determinism scenario of the spec:
revenue 100, 200, 300 on three consecutive dates. -/
def exDaily : List (ℤ × ℚ) := [(0, 100), (1, 200), (2, 300)]

/-- C1: on every daily series with at least two distinct dates the
forecast consists of exactly 7 points placed at the 7 consecutive
calendar dates after the latest observed date, each valued by the
fitted line at the day offset of its date counted from the earliest
observed date; the fitted coefficients minimize the sum of squared
residuals over the observed points; and on the series
(day0,100), (day1,200), (day2,300) the fitted slope is 100, the
intercept is 100, and the seven predictions run from 400 at day 3 to
1000 at day 9. -/
theorem forecast_ols :
    (∀ daily : List (ℤ × ℚ), (daily.map Prod.fst).Nodup →
      2 ≤ daily.length →
      (forecastOf daily).length = 7 ∧
      forecastOf daily = (List.range 7).map (fun (i : ℕ) =>
        (seriesMax (daily.map Prod.fst) + (i : ℤ) + 1,
         fittedIntercept daily + fittedSlope daily *
           (((seriesMax (daily.map Prod.fst) -
              seriesMin (daily.map Prod.fst) : ℤ) : ℚ) + (i : ℚ) + 1))) ∧
      (∀ a b : ℚ,
        sse (regressionPoints daily (seriesMin (daily.map Prod.fst)))
          (fittedIntercept daily) (fittedSlope daily) ≤
        sse (regressionPoints daily (seriesMin (daily.map Prod.fst))) a b) ∧
      seriesMax (daily.map Prod.fst) ∈ daily.map Prod.fst ∧
      (∀ d ∈ daily.map Prod.fst, d ≤ seriesMax (daily.map Prod.fst)) ∧
      seriesMin (daily.map Prod.fst) ∈ daily.map Prod.fst ∧
      (∀ d ∈ daily.map Prod.fst, seriesMin (daily.map Prod.fst) ≤ d)) ∧
    fittedSlope exDaily = 100 ∧
    fittedIntercept exDaily = 100 ∧
    forecastOf exDaily =
      [(3, 400), (4, 500), (5, 600), (6, 700),
       (7, 800), (8, 900), (9, 1000)] := by
  have h7 : List.range 7 = [0, 1, 2, 3, 4, 5, 6] := rfl
  refine ⟨fun daily hnd hlen => ?_, ?_, ?_, ?_⟩
  · have hne : daily ≠ [] := by
      intro h
      rw [h] at hlen
      exact absurd hlen (by norm_num)
    have hne2 : daily.map Prod.fst ≠ [] := by
      intro h
      exact hne (List.map_eq_nil_iff.mp h)
    have hif : 1 < daily.length := hlen
    have hshift : seriesMax (daily.map
        (fun p => p.1 - seriesMin (daily.map Prod.fst))) =
        seriesMax (daily.map Prod.fst) -
          seriesMin (daily.map Prod.fst) := by
      have hmm : daily.map
          (fun p => p.1 - seriesMin (daily.map Prod.fst)) =
          (daily.map Prod.fst).map
            (fun d => d - seriesMin (daily.map Prod.fst)) := by
        rw [List.map_map]
        rfl
      rw [hmm]
      exact seriesMax_shift _ _ hne2
    have heq : forecastOf daily = (List.range 7).map (fun (i : ℕ) =>
        (seriesMax (daily.map Prod.fst) + (i : ℤ) + 1,
         fittedIntercept daily + fittedSlope daily *
           (((seriesMax (daily.map Prod.fst) -
              seriesMin (daily.map Prod.fst) : ℤ) : ℚ) + (i : ℚ) + 1))) := by
      rw [forecastOf, if_pos hif]
      simp only [hshift, fittedSlope, fittedIntercept]
    refine ⟨by rw [heq, List.length_map, List.length_range], heq,
      fun a b => ?_, ?_, ?_, ?_, ?_⟩
    · have hn : nPts (regressionPoints daily
          (seriesMin (daily.map Prod.fst))) ≠ 0 := by
        rw [regression_nPts]
        exact Nat.cast_ne_zero.mpr (by omega)
      exact sse_optimal _ hn
        (regression_det_ne daily _ hnd hlen) a b
    · exact seriesMax_mem _ hne2
    · exact fun d hd => le_seriesMax _ d hd
    · exact seriesMin_mem _ hne2
    · exact fun d hd => seriesMin_le _ d hd
  · norm_num [fittedSlope, olsSlope, regressionPoints, exDaily,
      seriesMin, nPts, sumX, sumY, sumXY, sumXX, List.foldl, min_def]
  · norm_num [fittedIntercept, fittedSlope, olsIntercept, olsSlope,
      regressionPoints, exDaily, seriesMin, nPts, sumX, sumY, sumXY,
      sumXX, List.foldl, min_def]
  · rw [forecastOf, if_pos (by norm_num [exDaily])]
    norm_num [exDaily, olsIntercept, olsSlope, regressionPoints,
      seriesMin, seriesMax, nPts, sumX, sumY, sumXY, sumXX, h7,
      List.foldl, min_def, max_def]

/-- Witness for C1: the universal part applied to the concrete series
of the spec scenario gives exactly seven forecast points. -/
theorem forecast_ols_witness : (forecastOf exDaily).length = 7 :=
  (forecast_ols.1 exDaily (by decide) (by norm_num [exDaily])).1

end SmartShopPro
